import Mathlib

/-!
Verification of the sitemap parsing pipeline of `sitemap.py`.

The file embeds the Python module shallowly in Lean:

* strings are handled as `String` / `List Char`;
* the two regular expressions used by `generate_sitemap_nodes`, the link
  regular expression and the `Symbol` suffix regular expression of
  `parse_sitemap_node_codes` are translated to executable functions whose
  backtracking behaviour is derived in the comments next to them;
* the mutable tree of dictionaries is modelled by the mutual inductives
  `RTree`/`RForest`; the Python variable `last_node`, which is a reference
  into the tree being built, is modelled by the *path* (list of child
  indices) of the most recently inserted node, which is a stable address
  because `insert_node` only ever appends children;
* `assert` failures and `IndexError` are modelled by `Option`: a fatal
  error is `none`.

All recursions are structural, so every function evaluates inside the
kernel (`rfl` / `decide` work on concrete inputs).
-/

namespace Sitemap

/-- ASCII whitespace, modelling the characters Python's `str.strip` and the
regex class \s remove for the inputs considered here (the full Python set
also contains rare Unicode whitespace, which no claim exercises). -/
def isSpace (c : Char) : Bool :=
  c = ' ' || c = '\t' || c = '\n' || c = '\r' || c = '\x0b' || c = '\x0c'

/-- ASCII digits, modelling the regex class \d. -/
def isDigit (c : Char) : Bool :=
  '0' ≤ c && c ≤ '9'

/-- Remove the longest suffix of characters satisfying `p`. -/
def dropWhileRight (p : Char → Bool) (l : List Char) : List Char :=
  (l.reverse.dropWhile p).reverse

/-- Python's `str.strip()`: remove leading and trailing whitespace. -/
def stripChars (l : List Char) : List Char :=
  dropWhileRight isSpace (l.dropWhile isSpace)

/-- `startsWithChars p l` is Python's `l.startswith(p)` on character lists. -/
def startsWithChars : List Char → List Char → Bool
  | [], _ => true
  | _ :: _, [] => false
  | p :: ps, c :: cs => p = c && startsWithChars ps cs

/-- The line-break characters recognised by Python's `str.splitlines`. -/
def isLineBreak (c : Char) : Bool :=
  c = '\n' || c = '\r' || c = '\x0b' || c = '\x0c' || c = '\x1c' ||
  c = '\x1d' || c = '\x1e' || c = '\x85' || c = '\u2028' || c = '\u2029'

/-- Worker for `splitlines`; `cur` holds the current line reversed. -/
def splitlinesAux : List Char → List Char → List (List Char)
  | cur, [] => if cur = [] then [] else [cur.reverse]
  | cur, '\r' :: '\n' :: rest => cur.reverse :: splitlinesAux [] rest
  | cur, c :: rest =>
      if isLineBreak c then cur.reverse :: splitlinesAux [] rest
      else splitlinesAux (c :: cur) rest

/-- Python's `str.splitlines()` (terminators are dropped; a trailing
terminator produces no empty final line). -/
def splitlines (l : List Char) : List (List Char) :=
  splitlinesAux [] l

/-!
### The line classifier (`generate_sitemap_nodes`, sitemap.py lines 29-68)

The headline regex is `(={1,6})(.*)\1` used with `fullmatch`.  Because the
backreference has the same length as group 1 and the match must end at the
end of the line, a full match with group 1 of length `k` exists exactly when
the line starts with at least `k` equal signs, ends with at least `k` equal
signs, has length at least `2*k`, and its interior contains no newline
(`.` does not match a newline).  The engine's greedy choice of group 1 is
the largest such `k`, i.e. `min 6 (min lead (min trail (length / 2)))`,
and group 2 is then forced to be the slice between the two delimiter runs.
Any newline in the line lies outside the two equal-sign runs and hence
inside group 2's slice for every candidate `k`, so matching fails exactly
when the line contains a newline.
-/

/-- `re.fullmatch` of `(={1,6})(.*)\1` on a line: returns the length of
group 1 and the (unstripped) group 2. -/
def headlineMatch (l : List Char) : Option (Nat × List Char) :=
  let lead := (l.takeWhile (fun c => c = '=')).length
  let trail := (l.reverse.takeWhile (fun c => c = '=')).length
  if 1 ≤ lead ∧ 1 ≤ trail ∧ 2 ≤ l.length ∧ '\n' ∉ l then
    let k := min 6 (min lead (min trail (l.length / 2)))
    some (k, (l.drop k).take (l.length - 2 * k))
  else none

/-- `re.fullmatch` of `([*]+)(.*)` on a line: group 1 is the maximal leading
run of asterisks (must be nonempty), group 2 the remainder, which may not
contain a newline. -/
def listMatch (l : List Char) : Option (Nat × List Char) :=
  let m := (l.takeWhile (fun c => c = '*')).length
  if 1 ≤ m ∧ '\n' ∉ l then some (m, l.drop m) else none

/-- The two kinds of dictionaries yielded by `generate_sitemap_nodes`:
`node code depth` is `{"code": code, "depth": depth, "children": []}` and
`exclude header` is `{"type": "exclude", "header": header}`. -/
inductive SitemapItem : Type where
  | node (code : String) (depth : Nat)
  | exclude (header : String)
deriving DecidableEq

/-- The loop body of `generate_sitemap_nodes` for one line: try the headline
regex (depth offset 0), then the list regex (depth offset 6) on the stripped
line, then check the raw line for the `": Exclude:"` marker.  A line can
yield several items only in principle: the match conditions are mutually
exclusive, but the source runs all three checks, so we do too. -/
def classifyLine (line : List Char) : List SitemapItem :=
  let st := stripChars line
  (match headlineMatch st with
   | some (k, mid) => [SitemapItem.node (String.mk (stripChars mid)) (0 + k)]
   | none => []) ++
  (match listMatch st with
   | some (m, rest) => [SitemapItem.node (String.mk (stripChars rest)) (6 + m)]
   | none => []) ++
  (if startsWithChars (": Exclude:").data line then
     [SitemapItem.exclude (String.mk (stripChars (line.drop 10)))]
   else [])

/-- `generate_sitemap_nodes`: classify every line of the input, in order. -/
def generate_sitemap_nodes (s : String) : List SitemapItem :=
  (splitlines s.data).foldr (fun line acc => classifyLine line ++ acc) []

/-!
### The raw tree (`insert_node`, sitemap.py lines 70-76)
-/

mutual
/-- A raw sitemap node `{"code": .., "depth": .., "children": .., "excludes": ..}`.
The `excludes` key is created lazily in Python; absence is modelled by `[]`. -/
inductive RTree : Type where
  | node (code : String) (depth : Nat) (children : RForest) (excludes : List String)
/-- The children list of a raw node. -/
inductive RForest : Type where
  | nil
  | cons (t : RTree) (ts : RForest)
end

def RTree.code : RTree → String
  | .node c _ _ _ => c

def RTree.depth : RTree → Nat
  | .node _ d _ _ => d

def RTree.children : RTree → RForest
  | .node _ _ cs _ => cs

def RTree.excludes : RTree → List String
  | .node _ _ _ ex => ex

/-- Increment the first entry of a path (used when an insertion position is
found deeper inside a children list). -/
def bumpHead : List Nat → List Nat
  | [] => []
  | i :: p => (i + 1) :: p

mutual
/-- `insert_node(node, new_node)`: if the children list is nonempty and the
new node is deeper than the last child, recurse into the last child,
otherwise append.  In addition to the updated tree the function returns the
path (child indices) of the inserted node; this models the Python reference
`last_node`, which aliases the inserted dictionary inside the tree. -/
def insert_node : RTree → RTree → RTree × List Nat
  | .node c d cs ex, newNode =>
      let r := insert_nodeF cs newNode
      (.node c d r.1 ex, r.2)
/-- `insert_node` on a children list: walk to the last child. -/
def insert_nodeF : RForest → RTree → RForest × List Nat
  | .nil, newNode => (.cons newNode .nil, [0])
  | .cons t .nil, newNode =>
      if t.depth < newNode.depth then
        let r := insert_node t newNode
        (.cons r.1 .nil, 0 :: r.2)
      else (.cons t (.cons newNode .nil), [1])
  | .cons t (.cons u ts), newNode =>
      let r := insert_nodeF (.cons u ts) newNode
      (.cons t r.1, bumpHead r.2)
end

/-- Look up a child by index in a forest. -/
def getF : RForest → Nat → Option RTree
  | .nil, _ => none
  | .cons t _, 0 => some t
  | .cons _ ts, i + 1 => getF ts i

/-- Replace a child by index in a forest (identity when out of range). -/
def setF : RForest → Nat → RTree → RForest
  | .nil, _, _ => .nil
  | .cons _ ts, 0, t2 => .cons t2 ts
  | .cons t ts, i + 1, t2 => .cons t (setF ts i t2)

/-- Follow a path of child indices from a node. -/
def getAtPath : RTree → List Nat → Option RTree
  | t, [] => some t
  | t, i :: p =>
      match getF t.children i with
      | some c => getAtPath c p
      | none => none

/-- `last_node["excludes"].append(header)` in `parse_sitemap`: append a
header to the `excludes` of the node addressed by `path` (the tree is
unchanged when the path dangles, which never happens in the pipeline). -/
def appendExcludeAt : RTree → List Nat → String → RTree
  | .node c d cs ex, [], h => .node c d cs (ex ++ [h])
  | .node c d cs ex, i :: p, h =>
      match getF cs i with
      | some child => .node c d (setF cs i (appendExcludeAt child p h)) ex
      | none => .node c d cs ex

/-- The loop of `parse_sitemap` (sitemap.py lines 139-149).  The second
argument models `last_node`: the path of the most recently inserted node,
`none` while `last_node is None`.  An exclude item with no previous node
fails the `assert last_node` — modelled by `none`. -/
def runItems : RTree → Option (List Nat) → List SitemapItem → Option RTree
  | root, _, [] => some root
  | root, _, SitemapItem.node c d :: rest =>
      let r := insert_node root (RTree.node c d .nil [])
      runItems r.1 (some r.2) rest
  | root, lastP, SitemapItem.exclude h :: rest =>
      match lastP with
      | some p => runItems (appendExcludeAt root p h) (some p) rest
      | none => none

/-- The synthetic root created by `parse_sitemap` (line 135). -/
def sitemapRoot : RTree :=
  RTree.node "Mathe für Nicht-Freaks" 0 .nil []

/-!
### The code parser (`parse_sitemap_node_codes`, sitemap.py lines 78-112)

The suffix regex of line 88 is, character for character,
`\s+\{Symbol\|\d+%\}\}\s+\Z` — note the *single* opening brace after `\s+`
and the *required* trailing whitespace before the end of the string.
`re.sub` deletes the leftmost (and, being anchored at the end, only)
occurrence.  Backtracking is trivial: each repeated class is followed by a
character outside the class, so greedy runs are forced.

The link regex of lines 91-97 is `\[\[([^|\]]+)\|([^|\]]+)\]\]` used with
`re.match`, i.e. anchored at the start but allowing trailing garbage.  Both
groups exclude their own delimiters, so greedy runs are again forced.
-/

/-- Does `\s+\{Symbol\|\d+%\}\}\s+\Z` match starting at the head of `l`
(and running to the end of `l`)? -/
def symPatMatches (l : List Char) : Bool :=
  let r1 := l.dropWhile isSpace
  decide (l.takeWhile isSpace ≠ []) &&
  startsWithChars ("\x7bSymbol|").data r1 &&
  (let r2 := r1.drop 8
   decide (r2.takeWhile isDigit ≠ []) &&
   (let r3 := r2.dropWhile isDigit
    startsWithChars ("%\x7d\x7d").data r3 &&
    (let r4 := r3.drop 3
     decide (r4 ≠ []) && r4.all isSpace)))

/-- `re.sub(r"\s+\{Symbol\|\d+%\}\}\s+\Z", "", code)`: scan left to right;
at the first position where the end-anchored pattern matches, delete the
rest of the string. -/
def subSymbolSuffix : List Char → List Char
  | [] => []
  | c :: cs => if symPatMatches (c :: cs) then [] else c :: subSymbolSuffix cs

/-- A character allowed inside either group of the link regex: anything but
`|` and `]`. -/
def linkChar (c : Char) : Bool :=
  c != '|' && c != ']'

/-- `re.match` of `\[\[([^|\]]+)\|([^|\]]+)\]\]` against a prefix of `l`:
returns the two captured groups. -/
def matchLink : List Char → Option (List Char × List Char)
  | '[' :: '[' :: rest =>
      let t := rest.takeWhile linkChar
      if t = [] then none
      else
        match rest.dropWhile linkChar with
        | '|' :: r2 =>
            let n := r2.takeWhile linkChar
            if n = [] then none
            else
              match r2.dropWhile linkChar with
              | ']' :: ']' :: _ => some (t, n)
              | _ => none
        | _ => none
  | _ => none

/-- Lines 87-104 of `parse_sitemap_node_codes`: strip the `Symbol` suffix,
then try the link regex; on a match, `title`/`name` are the groups,
otherwise `title` is `None` and `name` is the (suffix-stripped) code. -/
def parseCode (code : String) : Option String × String :=
  let c := subSymbolSuffix code.data
  match matchLink c with
  | some (t, n) => (some (String.mk t), String.mk n)
  | none => (none, String.mk c)

mutual
/-- A parsed and typed sitemap node
`{"title": .., "name": .., "type": .., "children": .., "excludes": ..}`. -/
inductive TTree : Type where
  | node (title : Option String) (name : String) (type : String)
      (children : TForest) (excludes : List String)
/-- The children list of a typed node. -/
inductive TForest : Type where
  | nil
  | cons (t : TTree) (ts : TForest)
end

def TTree.title : TTree → Option String
  | .node ti _ _ _ _ => ti

def TTree.name : TTree → String
  | .node _ n _ _ _ => n

def TTree.type : TTree → String
  | .node _ _ ty _ _ => ty

def TTree.children : TTree → TForest
  | .node _ _ _ cs _ => cs

def TTree.excludes : TTree → List String
  | .node _ _ _ _ ex => ex

/-- `SITEMAP_NODE_TYPES` (sitemap.py line 10). -/
def SITEMAP_NODE_TYPES : List String :=
  ["mfnf_sitemap", "book", "chapter", "article", "article"]

mutual
/-- `add_sitemap_node_type(node, depth)` (lines 114-127): look the type up
by depth — `SITEMAP_NODE_TYPES[depth]` raises `IndexError` (`none`) for
depth ≥ 5 — and recurse into the children with `depth + 1`.  The input
`type` field is ignored (the Python dictionary simply lacks the key until
this function creates it). -/
def add_sitemap_node_type : TTree → Nat → Option TTree
  | .node ti n _ cs ex, d =>
      match SITEMAP_NODE_TYPES.get? d, add_sitemap_node_typeF cs (d + 1) with
      | some ty, some cs2 => some (.node ti n ty cs2 ex)
      | _, _ => none
/-- `add_sitemap_node_type` mapped over a children list. -/
def add_sitemap_node_typeF : TForest → Nat → Option TForest
  | .nil, _ => some .nil
  | .cons t ts, d =>
      match add_sitemap_node_type t d, add_sitemap_node_typeF ts d with
      | some t2, some ts2 => some (.cons t2 ts2)
      | _, _ => none
end

mutual
/-- `parse_sitemap_node_codes(node)` (lines 78-112): parse the code of the
node, recurse into the children, then call `add_sitemap_node_type` on the
result (depth 0), exactly as line 112 does for every node of the tree.  The
placeholder type `""` models the absent `"type"` key of the freshly built
dictionary; `add_sitemap_node_type` never reads it. -/
def parse_sitemap_node_codes : RTree → Option TTree
  | .node code _ cs ex =>
      let tn := parseCode code
      match parse_sitemap_node_codesF cs with
      | some cs2 => add_sitemap_node_type (.node tn.1 tn.2 "" cs2 ex) 0
      | none => none
/-- `parse_sitemap_node_codes` mapped over a children list. -/
def parse_sitemap_node_codesF : RForest → Option TForest
  | .nil => some .nil
  | .cons t ts =>
      match parse_sitemap_node_codes t, parse_sitemap_node_codesF ts with
      | some t2, some ts2 => some (.cons t2 ts2)
      | _, _ => none
end

/-- `parse_sitemap(sitemap_text)` (lines 129-151): build the tree from the
classified lines, then parse codes and assign types.  `none` models the two
fatal errors (failed `assert`, `IndexError`). -/
def parse_sitemap (s : String) : Option TTree :=
  match runItems sitemapRoot none (generate_sitemap_nodes s) with
  | some root => parse_sitemap_node_codes root
  | none => none



/-- Follow a nonempty path of child indices starting inside a forest
(the forest-level companion of `getAtPath`). -/
def pathGetF : RForest → List Nat → Option RTree
  | _, [] => none
  | cs, i :: p =>
      match getF cs i with
      | some t => getAtPath t p
      | none => none

/-!
### Auxiliary measures on trees (used only by the verification)
-/

/-- The children of a raw node as a `List`. -/
def RForest.toList : RForest → List RTree
  | .nil => []
  | .cons t ts => t :: toList ts

/-- The children of a typed node as a `List`. -/
def TForest.toList : TForest → List TTree
  | .nil => []
  | .cons t ts => t :: toList ts

mutual
/-- Height of a raw tree: the maximal tree depth (root = 0) of any node. -/
def heightR : RTree → Nat
  | .node _ _ cs _ => heightRF cs
/-- Height contribution of a forest: 0 when empty, otherwise one more than
the maximal height of its trees. -/
def heightRF : RForest → Nat
  | .nil => 0
  | .cons t ts => max (1 + heightR t) (heightRF ts)
end

mutual
/-- Height of a typed tree. -/
def heightT : TTree → Nat
  | .node _ _ _ cs _ => heightTF cs
/-- Height contribution of a typed forest. -/
def heightTF : TForest → Nat
  | .nil => 0
  | .cons t ts => max (1 + heightT t) (heightTF ts)
end

mutual
/-- Every `type` field occurring in a typed tree. -/
def allTypesT : TTree → List String
  | .node _ _ ty cs _ => ty :: allTypesF cs
/-- Every `type` field occurring in a typed forest. -/
def allTypesF : TForest → List String
  | .nil => []
  | .cons t ts => allTypesT t ++ allTypesF ts
end

/-- The `type` fields of all nodes at tree depth `k` (the root has depth 0). -/
def typesAtDepthT : Nat → TTree → List String
  | 0, t => [t.type]
  | k + 1, t =>
      (TForest.toList t.children).foldr (fun c acc => typesAtDepthT k c ++ acc) []

/-- A concrete input whose parsed tree has nodes at tree depths 1 to 4. -/
def c4Input : String :=
  "= a =\n* b\n** c\n*** d"

/-- The tree `parse_sitemap` returns on `c4Input`. -/
def c4Output : TTree :=
  TTree.node none "Mathe für Nicht-Freaks" "mfnf_sitemap"
    (.cons (TTree.node none "a" "book"
      (.cons (TTree.node none "b" "chapter"
        (.cons (TTree.node none "c" "article"
          (.cons (TTree.node none "d" "article" .nil []) .nil) [])
          .nil) [])
        .nil) [])
      .nil) []

/-- A raw tree of height 5, i.e. with a node at tree depth 5. -/
def c4DeepTree : RTree :=
  RTree.node "r" 0
    (.cons (RTree.node "a" 1
      (.cons (RTree.node "b" 2
        (.cons (RTree.node "c" 3
          (.cons (RTree.node "d" 4
            (.cons (RTree.node "e" 5 .nil []) .nil) [])
            .nil) [])
          .nil) [])
        .nil) [])
      .nil) []


mutual
/-- The depth invariant: every child is strictly deeper (raw `depth`
attribute) than its parent. -/
def depthInvT : RTree → Bool
  | .node _ d cs _ => depthInvF d cs
/-- The depth invariant for a forest of children of a node of depth `d`. -/
def depthInvF : Nat → RForest → Bool
  | _, .nil => true
  | d, .cons t ts => (decide (d < t.depth)) && depthInvT t && depthInvF d ts
end

/-- The tree assembled from the first two items of `c1Input`. -/
def c8Partial : RTree :=
  RTree.node "Mathe für Nicht-Freaks" 0
    (.cons (RTree.node "[[Book1|B1]]" 1
      (.cons (RTree.node "[[Art1|A1]]" 7 .nil []) .nil) []) .nil) []

/-!
### Simple consequences and concrete evaluations
-/

/-- The input string of the scenario of claim C1. -/
def c1Input : String :=
  "= [[Book1|B1]] =\n* [[Art1|A1]]\n: Exclude: skip this\n"

/-- The tree `parse_sitemap` actually returns for the C1 scenario input. -/
def c1Output : TTree :=
  TTree.node none "Mathe für Nicht-Freaks" "mfnf_sitemap"
    (.cons (TTree.node (some "Book1") "B1" "book"
      (.cons (TTree.node (some "Art1") "A1" "chapter" .nil ["skip this"]) .nil) [])
      .nil) []

/-- C1, counterexample: on the scenario input the root's single child is the
book `B1` as claimed, but its single child `A1` has type `"chapter"` (the
`A1` node sits at tree depth 2, and `SITEMAP_NODE_TYPES[2]` is
`"chapter"`), not `"article"` as the claim states. -/
theorem c1_scenario_counterexample :
    parse_sitemap c1Input = some c1Output ∧
    (c1Output.children = .cons (TTree.node (some "Book1") "B1" "book"
      (.cons (TTree.node (some "Art1") "A1" "chapter" .nil ["skip this"]) .nil) []) .nil) ∧
    "chapter" ≠ "article" :=
  ⟨rfl, rfl, by decide⟩

/-- C1, amended: for the input
`"= [[Book1|B1]] =\n* [[Art1|A1]]\n: Exclude: skip this\n"`,
`parse_sitemap` returns a root with exactly one child, of type `book` and
name `B1`, whose single child has type `chapter`, name `A1`, and excludes
`["skip this"]`. -/
theorem c1_scenario_amended :
    parse_sitemap c1Input = some c1Output :=
  rfl

/-- C2, code bug: the comment on line 87 of `sitemap.py` says the regex
deletes a trailing decorative suffix of shape two-braces `Symbol` percent
two-braces, but the regex on line 88 spells a *single* opening brace and
demands *trailing whitespace* before the end of the string.  Consequently
a code ending in the documented suffix is not stripped at all: the
non-link code keeps the suffix as part of its name, the link code only
parses because `re.match` ignores trailing garbage, and the only strings
the regex does strip are single-brace ones with trailing whitespace. -/
theorem c2_symbol_suffix_code_bug :
    parseCode "Baz \x7b\x7bSymbol|50%\x7d\x7d" = (none, "Baz \x7b\x7bSymbol|50%\x7d\x7d") ∧
    parseCode "[[A|B]] \x7b\x7bSymbol|50%\x7d\x7d" = (some "A", "B") ∧
    parseCode "[[A|B]]" = (some "A", "B") ∧
    subSymbolSuffix ("Baz \x7bSymbol|50%\x7d\x7d ").data = ("Baz").data ∧
    parse_sitemap "= Baz \x7b\x7bSymbol|50%\x7d\x7d =" =
      some (TTree.node none "Mathe für Nicht-Freaks" "mfnf_sitemap"
        (.cons (TTree.node none "Baz \x7b\x7bSymbol|50%\x7d\x7d" "book" .nil []) .nil) []) :=
  ⟨rfl, rfl, rfl, rfl, rfl⟩

/-- C3, counterexample: `parse_sitemap ""` succeeds and the returned root
carries type `"mfnf_sitemap"` (`SITEMAP_NODE_TYPES[0]`), not
`"sitemap-root"` as the claim states. -/
theorem c3_root_type_counterexample :
    parse_sitemap "" = some (TTree.node none "Mathe für Nicht-Freaks" "mfnf_sitemap" .nil []) ∧
    "mfnf_sitemap" ≠ "sitemap-root" :=
  ⟨rfl, by decide⟩

/-- C6: the code parser yields `title="Foo", name="Bar"` on `"[[Foo|Bar]]"`
and an absent title with `name="Baz"` on `"Baz"`; in general, when the
anchored link pattern matches a prefix of the (suffix-stripped) code the
two captured groups become title and name, and otherwise the title is
absent and the name is the (suffix-stripped) code itself. -/
theorem c6_link_parsing :
    parseCode "[[Foo|Bar]]" = (some "Foo", "Bar") ∧
    parseCode "Baz" = (none, "Baz") ∧
    (∀ (code : String) (t n : List Char),
        matchLink (subSymbolSuffix code.data) = some (t, n) →
        parseCode code = (some (String.mk t), String.mk n)) ∧
    (∀ code : String, matchLink (subSymbolSuffix code.data) = none →
        parseCode code = (none, String.mk (subSymbolSuffix code.data))) :=
  ⟨rfl, rfl,
   fun code t n h => by simp only [parseCode, h],
   fun code h => by simp only [parseCode, h]⟩

/-- Witness for C6: the general link clause applied to a concrete code with
trailing garbage after the link. -/
theorem c6_link_parsing_witness :
    parseCode "[[X|Y]] tail" = (some (String.mk ("X").data), String.mk ("Y").data) :=
  c6_link_parsing.2.2.1 "[[X|Y]] tail" ("X").data ("Y").data (by decide)

/-- C9: `parse_sitemap` is a pure function of its input string — in this
embedding the whole pipeline is a Lean function whose only free constant is
the read-only vocabulary `SITEMAP_NODE_TYPES`, so equal inputs give equal
output trees. -/
theorem c9_deterministic :
    ∀ s1 s2 : String, s1 = s2 → parse_sitemap s1 = parse_sitemap s2 :=
  fun _ _ h => h ▸ rfl

/-- Witness for C9 at a concrete input. -/
theorem c9_deterministic_witness :
    parse_sitemap "= a =" = parse_sitemap "= a =" :=
  c9_deterministic "= a =" "= a =" rfl

/-!
### The type annotator: lemmas
-/

/-- A list element found by index is a member. -/
theorem memOfGetQ {α : Type} :
    ∀ (l : List α) (n : Nat) (a : α), l.get? n = some a → a ∈ l
  | x :: _, 0, a, h => by
      simp only [List.get?] at h
      injection h with h2
      subst h2
      exact List.mem_cons_self _ _
  | _ :: xs, n + 1, a, h => List.mem_cons_of_mem _ (memOfGetQ xs n a h)

/-- Membership in a fold that concatenates `g` over a list. -/
theorem memFoldrAppend {α β : Type} (g : α → List β) :
    ∀ (l : List α) (x : β),
      x ∈ l.foldr (fun c acc => g c ++ acc) [] ↔ ∃ c ∈ l, x ∈ g c := by
  intro l x
  induction l with
  | nil => simp
  | cons c cs ih => simp [List.mem_append, ih]

/-- Success of `add_sitemap_node_type` forces the type looked up at `d` and
preserves title and name. -/
theorem add_type_eq (t : TTree) (d : Nat) (t2 : TTree)
    (h : add_sitemap_node_type t d = some t2) :
    SITEMAP_NODE_TYPES.get? d = some t2.type ∧
    t2.title = t.title ∧ t2.name = t.name := by
  cases t with
  | node ti n ty cs ex =>
    unfold add_sitemap_node_type at h
    split at h
    · cases h
      simp_all [TTree.type, TTree.title, TTree.name]
    · cases h

/-- Every member of a successfully retyped forest is itself the successful
retyping of some node. -/
theorem add_typeF_members :
    ∀ (cs : TForest) (d : Nat) (cs2 : TForest),
      add_sitemap_node_typeF cs d = some cs2 →
      ∀ c2 ∈ TForest.toList cs2, ∃ c, add_sitemap_node_type c d = some c2
  | .nil, _, cs2, h => by
      unfold add_sitemap_node_typeF at h
      cases h
      simp [TForest.toList]
  | .cons t ts, d, cs2, h => by
      unfold add_sitemap_node_typeF at h
      split at h
      · cases h
        intro c2 hc2
        simp only [TForest.toList, List.mem_cons] at hc2
        rcases hc2 with rfl | hc2
        · exact ⟨t, by assumption⟩
        · exact add_typeF_members ts d _ (by assumption) c2 hc2
      · cases h

/-- After a successful `add_sitemap_node_type` at depth `d`, every type
found at tree depth `k` below the node is the vocabulary entry `d + k`. -/
theorem add_type_typesAtDepth :
    ∀ (k : Nat) (t : TTree) (d : Nat) (t2 : TTree),
      add_sitemap_node_type t d = some t2 →
      ∀ x ∈ typesAtDepthT k t2, SITEMAP_NODE_TYPES.get? (d + k) = some x := by
  intro k
  induction k with
  | zero =>
      intro t d t2 h x hx
      simp only [typesAtDepthT, List.mem_singleton] at hx
      subst hx
      exact (add_type_eq t d t2 h).1
  | succ k ih =>
      intro t d t2 h x hx
      cases t with
      | node ti n ty cs ex =>
        unfold add_sitemap_node_type at h
        split at h
        · cases h
          simp only [typesAtDepthT, TTree.children] at hx
          rw [memFoldrAppend] at hx
          obtain ⟨c2, hc2, hxc2⟩ := hx
          obtain ⟨c, hc⟩ := add_typeF_members cs (d + 1) _ (by assumption) c2 hc2
          have h2 := ih c (d + 1) c2 hc x hxc2
          have : d + (k + 1) = (d + 1) + k := by omega
          rw [this]
          exact h2
        · cases h

mutual
/-- All types of a successfully annotated tree come from the vocabulary. -/
theorem add_type_allTypes :
    ∀ (t : TTree) (d : Nat) (t2 : TTree),
      add_sitemap_node_type t d = some t2 →
      ∀ x ∈ allTypesT t2, x ∈ SITEMAP_NODE_TYPES
  | .node ti n ty cs ex, d, t2, h => by
      unfold add_sitemap_node_type at h
      split at h
      · cases h
        intro x hx
        simp only [allTypesT, List.mem_cons] at hx
        rcases hx with rfl | hx
        · exact memOfGetQ _ d x (by assumption)
        · exact add_typeF_allTypes cs (d + 1) _ (by assumption) x hx
      · cases h
/-- Forest version of `add_type_allTypes`. -/
theorem add_typeF_allTypes :
    ∀ (cs : TForest) (d : Nat) (cs2 : TForest),
      add_sitemap_node_typeF cs d = some cs2 →
      ∀ x ∈ allTypesF cs2, x ∈ SITEMAP_NODE_TYPES
  | .nil, _, cs2, h => by
      unfold add_sitemap_node_typeF at h
      cases h
      simp [allTypesF]
  | .cons t ts, d, cs2, h => by
      unfold add_sitemap_node_typeF at h
      split at h
      · cases h
        intro x hx
        simp only [allTypesF, List.mem_append] at hx
        rcases hx with hx | hx
        · exact add_type_allTypes t d _ (by assumption) x hx
        · exact add_typeF_allTypes ts d _ (by assumption) x hx
      · cases h
end

mutual
/-- A successful annotation bounds `d` plus the height of the tree by 4. -/
theorem add_type_le :
    ∀ (t : TTree) (d : Nat) (t2 : TTree),
      add_sitemap_node_type t d = some t2 → d + heightT t ≤ 4
  | .node ti n ty cs ex, d, t2, h => by
      unfold add_sitemap_node_type at h
      split at h
      · have hd : d < SITEMAP_NODE_TYPES.length := by
          by_contra hcontra
          have : SITEMAP_NODE_TYPES.get? d = none := List.get?_eq_none.mpr (by omega)
          simp_all
        have hf := add_typeF_le cs (d + 1) _ (by assumption)
        simp only [SITEMAP_NODE_TYPES, List.length_cons, List.length_nil] at hd
        simp only [heightT]
        omega
      · cases h
/-- Forest version of `add_type_le`. -/
theorem add_typeF_le :
    ∀ (cs : TForest) (d : Nat) (cs2 : TForest),
      add_sitemap_node_typeF cs d = some cs2 → d + heightTF cs ≤ max d 5
  | .nil, d, cs2, h => by
      simp only [heightTF]
      omega
  | .cons t ts, d, cs2, h => by
      unfold add_sitemap_node_typeF at h
      split at h
      · have h1 := add_type_le t d _ (by assumption)
        have h2 := add_typeF_le ts d _ (by assumption)
        simp only [heightTF]
        omega
      · cases h
end

mutual
/-- `add_sitemap_node_type` preserves the height of the tree. -/
theorem add_type_height :
    ∀ (t : TTree) (d : Nat) (t2 : TTree),
      add_sitemap_node_type t d = some t2 → heightT t2 = heightT t
  | .node ti n ty cs ex, d, t2, h => by
      unfold add_sitemap_node_type at h
      split at h
      · cases h
        have := add_typeF_height cs (d + 1) _ (by assumption)
        simp only [heightT]
        omega
      · cases h
/-- Forest version of `add_type_height`. -/
theorem add_typeF_height :
    ∀ (cs : TForest) (d : Nat) (cs2 : TForest),
      add_sitemap_node_typeF cs d = some cs2 → heightTF cs2 = heightTF cs
  | .nil, _, cs2, h => by
      unfold add_sitemap_node_typeF at h
      cases h
      rfl
  | .cons t ts, d, cs2, h => by
      unfold add_sitemap_node_typeF at h
      split at h
      · cases h
        have h1 := add_type_height t d _ (by assumption)
        have h2 := add_typeF_height ts d _ (by assumption)
        simp only [heightTF]
        omega
      · cases h
end

mutual
/-- `parse_sitemap_node_codes` preserves the height of the tree. -/
theorem parse_codes_height :
    ∀ (u : RTree) (t : TTree),
      parse_sitemap_node_codes u = some t → heightT t = heightR u
  | .node code d0 cs ex, t, h => by
      unfold parse_sitemap_node_codes at h
      split at h
      · have hhf := parse_codesF_height cs _ (by assumption)
        have hadd := add_type_height _ 0 t h
        simp only [heightT] at hadd
        simp only [heightR]
        omega
      · cases h
/-- Forest version of `parse_codes_height`. -/
theorem parse_codesF_height :
    ∀ (cs : RForest) (cs2 : TForest),
      parse_sitemap_node_codesF cs = some cs2 → heightTF cs2 = heightRF cs
  | .nil, cs2, h => by
      unfold parse_sitemap_node_codesF at h
      cases h
      simp [heightTF, heightRF]
  | .cons t ts, cs2, h => by
      unfold parse_sitemap_node_codesF at h
      split at h
      · cases h
        have h1 := parse_codes_height t _ (by assumption)
        have h2 := parse_codesF_height ts _ (by assumption)
        simp only [heightTF, heightRF]
        omega
      · cases h
end

/-!
### The pipeline driver: structural lemmas
-/

/-- Splitting a successful run of `parse_sitemap` into its two stages. -/
theorem parse_sitemap_split (s : String) (t : TTree)
    (h : parse_sitemap s = some t) :
    ∃ root, runItems sitemapRoot none (generate_sitemap_nodes s) = some root ∧
      parse_sitemap_node_codes root = some t := by
  unfold parse_sitemap at h
  split at h
  · exact ⟨_, by assumption, h⟩
  · cases h

/-- Splitting a successful run of `parse_sitemap_node_codes` on a node into
the recursive call on the children and the final type annotation. -/
theorem parse_codes_split (u : RTree) (t : TTree)
    (h : parse_sitemap_node_codes u = some t) :
    ∃ cs2, parse_sitemap_node_codesF u.children = some cs2 ∧
      add_sitemap_node_type
        (TTree.node (parseCode u.code).1 (parseCode u.code).2 "" cs2 u.excludes) 0 =
        some t := by
  cases u with
  | node code d0 cs ex =>
    unfold parse_sitemap_node_codes at h
    split at h
    · exact ⟨_, by assumption, h⟩
    · cases h

/-- `insert_node` changes neither the code nor the depth of the node it
inserts into. -/
theorem insert_node_fields (root newNode : RTree) :
    (insert_node root newNode).1.code = root.code ∧
    (insert_node root newNode).1.depth = root.depth := by
  cases root
  simp [insert_node, RTree.code, RTree.depth]

/-- `appendExcludeAt` changes neither the code nor the depth of the root. -/
theorem appendExcludeAt_fields :
    ∀ (p : List Nat) (root : RTree) (h : String),
      (appendExcludeAt root p h).code = root.code ∧
      (appendExcludeAt root p h).depth = root.depth := by
  intro p root h
  cases root with
  | node c d cs ex =>
    cases p with
    | nil => simp [appendExcludeAt, RTree.code, RTree.depth]
    | cons i p =>
        simp only [appendExcludeAt]
        split <;> simp [RTree.code, RTree.depth]

/-- The tree built by the assembly loop keeps the code and the depth of the
initial root. -/
theorem runItems_root_fields :
    ∀ (items : List SitemapItem) (root : RTree) (lp : Option (List Nat)) (t : RTree),
      runItems root lp items = some t → t.code = root.code ∧ t.depth = root.depth := by
  intro items
  induction items with
  | nil =>
      intro root lp t h
      cases h
      exact ⟨rfl, rfl⟩
  | cons item rest ih =>
      intro root lp t h
      cases item with
      | node c d =>
          simp only [runItems] at h
          have h2 := ih _ _ _ h
          have h3 := insert_node_fields root (RTree.node c d .nil [])
          exact ⟨h2.1.trans h3.1, h2.2.trans h3.2⟩
      | exclude hd =>
          simp only [runItems] at h
          cases lp with
          | none => cases h
          | some p =>
              have h2 := ih _ _ _ h
              have h3 := appendExcludeAt_fields p root hd
              exact ⟨h2.1.trans h3.1, h2.2.trans h3.2⟩

/-!
### Claims C3 (amended), C4, C10
-/

/-- C3, amended: whenever `parse_sitemap` succeeds it returns the root
itself, whose `type` is the constant `"mfnf_sitemap"` (not
`"sitemap-root"`), and every `type` in the tree is one of
`mfnf_sitemap`, `book`, `chapter`, `article`. -/
theorem c3_root_type_amended :
    ∀ (s : String) (t : TTree), parse_sitemap s = some t →
      t.type = "mfnf_sitemap" ∧
      ∀ x ∈ allTypesT t, x ∈ (["mfnf_sitemap", "book", "chapter", "article"] : List String) := by
  intro s t h
  obtain ⟨root, hrun, hpc⟩ := parse_sitemap_split s t h
  obtain ⟨cs2, hf, hadd⟩ := parse_codes_split root t hpc
  constructor
  · have h0 := (add_type_eq _ 0 t hadd).1
    simp only [SITEMAP_NODE_TYPES, List.get?] at h0
    exact (Option.some_injective _ h0).symm
  · intro x hx
    have hmem := add_type_allTypes _ 0 t hadd x hx
    simp only [SITEMAP_NODE_TYPES, List.mem_cons, List.not_mem_nil, or_false] at hmem
    rcases hmem with rfl | rfl | rfl | rfl | rfl <;> simp

/-- Witness for C3's amended theorem at the empty input. -/
theorem c3_root_type_amended_witness :
    (TTree.node none "Mathe für Nicht-Freaks" "mfnf_sitemap" .nil [] : TTree).type =
      "mfnf_sitemap" :=
  (c3_root_type_amended ""
    (TTree.node none "Mathe für Nicht-Freaks" "mfnf_sitemap" .nil []) rfl).1

/-- C4: in the final tree every node at tree depth 1 has type `book`, every
node at depth 2 `chapter`, and every node at depths 3 and 4 `article`; and
`parse_sitemap_node_codes` (the combined code-parsing/type-annotation pass)
fails — `SITEMAP_NODE_TYPES[depth]` raises `IndexError`, i.e. `none` —
on every assembled tree containing a node at tree depth 5 or deeper
(equivalently, of height at least 5). -/
theorem c4_type_assignment :
    (∀ (s : String) (t : TTree), parse_sitemap s = some t →
        (∀ x ∈ typesAtDepthT 1 t, x = "book") ∧
        (∀ x ∈ typesAtDepthT 2 t, x = "chapter") ∧
        (∀ x ∈ typesAtDepthT 3 t, x = "article") ∧
        (∀ x ∈ typesAtDepthT 4 t, x = "article")) ∧
    (∀ root : RTree, 5 ≤ heightR root → parse_sitemap_node_codes root = none) := by
  constructor
  · intro s t h
    obtain ⟨root, hrun, hpc⟩ := parse_sitemap_split s t h
    obtain ⟨cs2, hf, hadd⟩ := parse_codes_split root t hpc
    refine ⟨?_, ?_, ?_, ?_⟩ <;>
      · intro x hx
        have := add_type_typesAtDepth _ _ 0 t hadd x hx
        simp only [SITEMAP_NODE_TYPES, List.get?] at this
        exact (Option.some_injective _ this).symm
  · intro root hroot
    cases hpc : parse_sitemap_node_codes root with
    | none => rfl
    | some t =>
        obtain ⟨cs2, hf, hadd⟩ := parse_codes_split root t hpc
        have hle := add_type_le _ 0 t hadd
        have hh := parse_codesF_height _ _ hf
        cases root with
        | node code d0 cs ex =>
            simp only [heightT, RTree.children] at hle hh
            simp only [heightR] at hroot
            omega

/-- Witness for C4: the depth-1 clause instantiated at the type found at
depth 1 of a concrete parsed tree, and the failure of the pipeline on a
concrete tree of height 5. -/
theorem c4_type_assignment_witness :
    "book" = "book" ∧ parse_sitemap_node_codes c4DeepTree = none :=
  ⟨(c4_type_assignment.1 c4Input c4Output rfl).1 "book" (by decide),
   c4_type_assignment.2 c4DeepTree (by decide)⟩

/-- C10: whenever `parse_sitemap` returns a tree, its root has no title and
carries the constant name `"Mathe für Nicht-Freaks"`; on the empty input the
result is exactly that root with no children and no excludes. -/
theorem c10_root_constant :
    (∀ (s : String) (t : TTree), parse_sitemap s = some t →
        t.title = none ∧ t.name = "Mathe für Nicht-Freaks") ∧
    parse_sitemap "" =
      some (TTree.node none "Mathe für Nicht-Freaks" "mfnf_sitemap" .nil []) := by
  constructor
  · intro s t h
    obtain ⟨root, hrun, hpc⟩ := parse_sitemap_split s t h
    have hcode : root.code = "Mathe für Nicht-Freaks" :=
      (runItems_root_fields _ _ _ _ hrun).1
    obtain ⟨cs2, hf, hadd⟩ := parse_codes_split root t hpc
    rw [hcode] at hadd
    have hpcode : parseCode "Mathe für Nicht-Freaks" = (none, "Mathe für Nicht-Freaks") := rfl
    rw [hpcode] at hadd
    have h3 := add_type_eq _ 0 t hadd
    exact ⟨h3.2.1, h3.2.2⟩
  · rfl

/-- Witness for C10's universally quantified clause at the C1 input. -/
theorem c10_root_constant_witness :
    c1Output.title = none ∧ c1Output.name = "Mathe für Nicht-Freaks" :=
  c10_root_constant.1 c1Input c1Output rfl

/-!
### Claim C5: exclude directives
-/

/-- If every item before some exclude directive is itself an exclude
directive, the assembly loop starting with `last_node = None` fails. -/
theorem runItems_orphan :
    ∀ (pre : List SitemapItem) (root : RTree) (h : String) (rest : List SitemapItem),
      (∀ x ∈ pre, ∃ h2, x = SitemapItem.exclude h2) →
      runItems root none (pre ++ SitemapItem.exclude h :: rest) = none := by
  intro pre root h rest hpre
  cases pre with
  | nil => rfl
  | cons x pre2 =>
      obtain ⟨h2, rfl⟩ := hpre x (List.mem_cons_self _ _)
      rfl

/-- Nonemptiness of the path returned by `insert_nodeF`. -/
theorem insert_nodeF_path_ne :
    ∀ (cs : RForest) (newNode : RTree), (insert_nodeF cs newNode).2 ≠ []
  | .nil, newNode => by simp [insert_nodeF]
  | .cons t .nil, newNode => by
      simp only [insert_nodeF]
      split <;> simp
  | .cons t (.cons u ts), newNode => by
      have hne := insert_nodeF_path_ne (.cons u ts) newNode
      simp only [insert_nodeF]
      cases hp : (insert_nodeF (.cons u ts) newNode).2 with
      | nil => exact absurd hp hne
      | cons i p => simp [bumpHead, hp]

/-- Reading back the index just written by `setF`. -/
theorem getF_setF :
    ∀ (cs : RForest) (i : Nat) (child t2 : RTree),
      getF cs i = some child → getF (setF cs i t2) i = some t2
  | .nil, i, child, t2, h => by cases h
  | .cons t ts, 0, child, t2, h => rfl
  | .cons t ts, i + 1, child, t2, h => by
      simp only [getF, setF]
      exact getF_setF ts i child t2 h

/-- Appending an exclude header at a valid path only extends that node's
`excludes` list. -/
theorem getAtPath_appendExcludeAt :
    ∀ (p : List Nat) (root : RTree) (h c : String) (d : Nat) (cs : RForest)
      (ex : List String),
      getAtPath root p = some (RTree.node c d cs ex) →
      getAtPath (appendExcludeAt root p h) p = some (RTree.node c d cs (ex ++ [h])) := by
  intro p
  induction p with
  | nil =>
      intro root h c d cs ex hg
      cases hg' : root with
      | node c0 d0 cs0 ex0 =>
          rw [hg'] at hg
          simp only [getAtPath] at hg
          cases hg
          rfl
  | cons i p ih =>
      intro root h c d cs ex hg
      cases root with
      | node c0 d0 cs0 ex0 =>
          simp only [getAtPath, RTree.children] at hg
          cases hgf : getF cs0 i with
          | none => rw [hgf] at hg; cases hg
          | some child =>
              rw [hgf] at hg
              simp only [appendExcludeAt, hgf]
              simp only [getAtPath, RTree.children]
              rw [getF_setF cs0 i child _ hgf]
              exact ih child h c d cs ex hg

mutual
/-- The path returned by `insert_node` addresses the inserted node. -/
theorem insert_node_path :
    ∀ (t newNode : RTree),
      getAtPath (insert_node t newNode).1 (insert_node t newNode).2 = some newNode
  | .node c d cs ex, newNode => by
      have hne := insert_nodeF_path_ne cs newNode
      have hf := insert_nodeF_path cs newNode
      simp only [insert_node]
      cases hp : (insert_nodeF cs newNode).2 with
      | nil => exact absurd hp hne
      | cons i p =>
          rw [hp] at hf
          simp only [pathGetF] at hf
          simp only [getAtPath, RTree.children]
          exact hf
/-- The path returned by `insert_nodeF` addresses the inserted node. -/
theorem insert_nodeF_path :
    ∀ (cs : RForest) (newNode : RTree),
      pathGetF (insert_nodeF cs newNode).1 (insert_nodeF cs newNode).2 = some newNode
  | .nil, newNode => by simp [insert_nodeF, pathGetF, getF, getAtPath]
  | .cons t .nil, newNode => by
      simp only [insert_nodeF]
      split
      · have h1 := insert_node_path t newNode
        simp only [pathGetF, getF]
        exact h1
      · simp [pathGetF, getF, getAtPath]
  | .cons t (.cons u ts), newNode => by
      have hne := insert_nodeF_path_ne (.cons u ts) newNode
      have hf := insert_nodeF_path (.cons u ts) newNode
      simp only [insert_nodeF]
      cases hp : (insert_nodeF (.cons u ts) newNode).2 with
      | nil => exact absurd hp hne
      | cons i p =>
          rw [hp] at hf
          simp only [bumpHead, pathGetF, getF] at hf ⊢
          exact hf
end

/-- C5: an exclude directive before any node makes `parse_sitemap` fail
(the failed `assert last_node`), and a directive that follows at least one
node appends its header to the `excludes` of the node the `last_node`
pointer addresses — which is always the most recently inserted node, since
the insertion path addresses the inserted node. -/
theorem c5_exclude_directives :
    (∀ (s : String) (pre : List SitemapItem) (h : String) (rest : List SitemapItem),
        generate_sitemap_nodes s = pre ++ SitemapItem.exclude h :: rest →
        (∀ x ∈ pre, ∃ h2, x = SitemapItem.exclude h2) →
        parse_sitemap s = none) ∧
    (∀ (root : RTree) (p : List Nat) (h : String) (items : List SitemapItem)
        (c : String) (d : Nat) (cs : RForest) (ex : List String),
        getAtPath root p = some (RTree.node c d cs ex) →
        runItems root (some p) (SitemapItem.exclude h :: items) =
          runItems (appendExcludeAt root p h) (some p) items ∧
        getAtPath (appendExcludeAt root p h) p =
          some (RTree.node c d cs (ex ++ [h]))) ∧
    (∀ (t newNode : RTree),
        getAtPath (insert_node t newNode).1 (insert_node t newNode).2 = some newNode) := by
  refine ⟨?_, ?_, insert_node_path⟩
  · intro s pre h rest hgen hpre
    have horphan := runItems_orphan pre sitemapRoot h rest hpre
    unfold parse_sitemap
    rw [hgen, horphan]
  · intro root p h items c d cs ex hg
    exact ⟨rfl, getAtPath_appendExcludeAt p root h c d cs ex hg⟩

/-- Witness for C5: the orphan clause on a concrete input that starts with
an exclude directive, and the append clause on a concrete two-node tree. -/
theorem c5_exclude_directives_witness :
    parse_sitemap ": Exclude: x" = none ∧
    getAtPath
      (appendExcludeAt (RTree.node "r" 0 (.cons (RTree.node "a" 1 .nil []) .nil) [])
        [0] "h") [0] = some (RTree.node "a" 1 .nil ["h"]) :=
  ⟨c5_exclude_directives.1 ": Exclude: x" [] "x" [] (by decide) (by simp),
   (c5_exclude_directives.2.1
      (RTree.node "r" 0 (.cons (RTree.node "a" 1 .nil []) .nil) [])
      [0] "h" [] "a" 1 .nil [] rfl).2⟩

/-!
### Claim C7: the line classifier on well-formed lines
-/

/-- `dropWhile` keeps a trailing element that fails the predicate. -/
theorem dropWhileAppendOne (p : Char → Bool) (a : Char) (ha : p a = false) :
    ∀ xs : List Char, (xs ++ [a]).dropWhile p = xs.dropWhile p ++ [a] := by
  intro xs
  induction xs with
  | nil => simp [List.dropWhile_cons, ha]
  | cons x xs ih =>
      by_cases hx : p x
      · simp [List.dropWhile_cons, hx, ih]
      · simp [List.dropWhile_cons, hx]

/-- Stripping a list whose head is not whitespace keeps the head. -/
theorem stripCharsConsNotSpace (c : Char) (hc : isSpace c = false) (r : List Char) :
    stripChars (c :: r) = c :: dropWhileRight isSpace r := by
  unfold stripChars dropWhileRight
  rw [List.dropWhile_cons]
  simp only [hc, Bool.false_eq_true, if_false]
  rw [List.reverse_cons, dropWhileAppendOne isSpace c hc, List.reverse_append]
  simp

/-- `takeWhile` consumes exactly a replicate block when the following head
fails the predicate. -/
theorem takeWhileReplApp (p : Char → Bool) (c : Char) (hc : p c = true) :
    ∀ (k : Nat) (s : List Char), (∀ a, s.head? = some a → p a = false) →
      (List.replicate k c ++ s).takeWhile p = List.replicate k c := by
  intro k
  induction k with
  | zero =>
      intro s hs
      cases s with
      | nil => rfl
      | cons a s2 =>
          simp [List.takeWhile_cons, hs a rfl]
  | succ k ih =>
      intro s hs
      simp [List.replicate_succ, List.takeWhile_cons, hc, ih s hs]

/-- The headline regex on a line made of `k` equal signs, a body and `k`
closing equal signs matches with group 1 of length exactly `k` and group 2
the body. -/
theorem headlineMatchRepl (k : Nat) (s : List Char)
    (hk1 : 1 ≤ k) (hk6 : k ≤ 6) (hne : s ≠ [])
    (hh : s.head? ≠ some '=') (hl : s.getLast? ≠ some '=') (hn : '\n' ∉ s) :
    headlineMatch (List.replicate k '=' ++ s ++ List.replicate k '=') = some (k, s) := by
  rw [List.append_assoc]
  have hheadP : ∀ a, (s ++ List.replicate k '=').head? = some a →
      (decide (a = '=')) = false := by
    intro a ha
    cases s with
    | nil => exact absurd rfl hne
    | cons b s2 =>
        simp only [List.cons_append, List.head?_cons] at ha
        cases ha
        simp only [decide_eq_false_iff_not]
        exact fun hEq => hh (by simp [hEq])
  have hlead : (List.replicate k '=' ++ (s ++ List.replicate k '=')).takeWhile
      (fun c => decide (c = '=')) = List.replicate k '=' :=
    takeWhileReplApp _ '=' (by decide) k _ hheadP
  have hrev : (List.replicate k '=' ++ (s ++ List.replicate k '=')).reverse =
      List.replicate k '=' ++ (s.reverse ++ List.replicate k '=') := by
    simp [List.reverse_append, List.reverse_replicate, List.append_assoc]
  have htrailP : ∀ a, (s.reverse ++ List.replicate k '=').head? = some a →
      (decide (a = '=')) = false := by
    intro a ha
    cases hsr : s.reverse with
    | nil => exact absurd (List.reverse_eq_nil_iff.mp hsr) hne
    | cons b rest =>
        rw [hsr] at ha
        simp only [List.cons_append, List.head?_cons] at ha
        cases ha
        have hlast : s.getLast? = some a := by
          rw [← List.head?_reverse, hsr, List.head?_cons]
        simpa using fun hEq => hl (by rw [hlast, hEq])
  have htrail : ((List.replicate k '=' ++ (s ++ List.replicate k '=')).reverse).takeWhile
      (fun c => decide (c = '=')) = List.replicate k '=' := by
    rw [hrev]
    exact takeWhileReplApp _ '=' (by decide) k _ htrailP
  have hlen : (List.replicate k '=' ++ (s ++ List.replicate k '=')).length =
      k + (s.length + k) := by
    simp
  have hnl : '\n' ∉ List.replicate k '=' ++ (s ++ List.replicate k '=') := by
    simp only [List.mem_append, List.mem_replicate]
    rintro (⟨-, h⟩ | h | ⟨-, h⟩) <;> simp_all
  have hsne : 1 ≤ s.length := by
    cases s with
    | nil => exact absurd rfl hne
    | cons b s2 => simp
  simp only [headlineMatch, hlead, htrail, hlen, List.length_replicate]
  rw [if_pos]
  · have hmin : min 6 (min k (min k ((k + (s.length + k)) / 2))) = k := by omega
    rw [hmin]
    have hdrop : (List.replicate k '=' ++ (s ++ List.replicate k '=')).drop k =
        s ++ List.replicate k '=' := by
      have h0 := List.drop_left (List.replicate k '=') (s ++ List.replicate k '=')
      rwa [List.length_replicate] at h0
    have htk : k + (s.length + k) - 2 * k = s.length := by omega
    rw [hdrop, htk, List.take_left]
  · exact ⟨hk1, hk1, by omega, hnl⟩

/-- The list regex on a line made of `m` asterisks and a body matches with
group 1 of length exactly `m` and group 2 the body. -/
theorem listMatchRepl (m : Nat) (s : List Char) (hm : 1 ≤ m)
    (hh : s.head? ≠ some '*') (hn : '\n' ∉ s) :
    listMatch (List.replicate m '*' ++ s) = some (m, s) := by
  have hheadP : ∀ a, s.head? = some a → (decide (a = '*')) = false := by
    intro a ha
    simp only [decide_eq_false_iff_not]
    exact fun hEq => hh (by rw [ha, hEq])
  have htake : (List.replicate m '*' ++ s).takeWhile (fun c => decide (c = '*')) =
      List.replicate m '*' :=
    takeWhileReplApp _ '*' (by decide) m _ hheadP
  have hnl : '\n' ∉ List.replicate m '*' ++ s := by
    simp only [List.mem_append, List.mem_replicate]
    rintro (⟨-, h⟩ | h) <;> simp_all
  have hdrop : (List.replicate m '*' ++ s).drop m = s := by
    have h0 := List.drop_left (List.replicate m '*') s
    rwa [List.length_replicate] at h0
  simp only [listMatch, htake, List.length_replicate]
  rw [if_pos ⟨hm, hnl⟩, hdrop]

/-- A match by `startsWithChars` forces equal heads. -/
theorem startsWithConsHead (pc : Char) (ps : List Char) (c : Char) (r : List Char)
    (h : startsWithChars (pc :: ps) (c :: r) = true) : pc = c := by
  simp only [startsWithChars, Bool.and_eq_true, decide_eq_true_eq] at h
  exact h.1

/-- C7: a line whose trimmed form is `k` equal signs, a body `s` that
neither starts nor ends with an equal sign, and `k` closing equal signs
(1 ≤ k ≤ 6) classifies to exactly one descriptor, of depth `k` and code
`s` trimmed; and a line whose trimmed form is `m` asterisks followed by a
body not starting with an asterisk classifies to exactly one descriptor of
depth `6 + m` (and code the trimmed body). -/
theorem c7_line_classifier :
    (∀ (line : List Char) (k : Nat) (s : List Char),
        stripChars line = List.replicate k '=' ++ s ++ List.replicate k '=' →
        1 ≤ k → k ≤ 6 → s ≠ [] → s.head? ≠ some '=' → s.getLast? ≠ some '=' →
        '\n' ∉ s →
        classifyLine line = [SitemapItem.node (String.mk (stripChars s)) k]) ∧
    (∀ (line : List Char) (m : Nat) (s : List Char),
        stripChars line = List.replicate m '*' ++ s →
        1 ≤ m → s.head? ≠ some '*' → '\n' ∉ s →
        classifyLine line = [SitemapItem.node (String.mk (stripChars s)) (6 + m)]) := by
  constructor
  · intro line k s hstrip hk1 hk6 hne hh hl hn
    have hhm := headlineMatchRepl k s hk1 hk6 hne hh hl hn
    have hlm : listMatch (stripChars line) = none := by
      rw [hstrip]
      cases k with
      | zero => omega
      | succ j =>
          simp [listMatch, List.replicate_succ, List.takeWhile_cons]
    have hexc : ¬ startsWithChars (": Exclude:").data line = true := by
      intro hsw
      cases hline2 : line with
      | nil => rw [hline2] at hsw; exact absurd hsw (by decide)
      | cons c r =>
          rw [hline2] at hsw
          have hdata : (": Exclude:").data = ':' :: (" Exclude:").data := rfl
          rw [hdata] at hsw
          have hc := startsWithConsHead ':' _ c r hsw
          have hstrip2 := stripCharsConsNotSpace c (by rw [← hc]; decide) r
          rw [hline2, hstrip2] at hstrip
          cases k with
          | zero => omega
          | succ j =>
              rw [List.replicate_succ] at hstrip
              simp only [List.cons_append] at hstrip
              have : c = '=' := by
                have := congrArg List.head? hstrip
                simpa using this
              rw [← hc] at this
              exact absurd this (by decide)
    have hhm2 : headlineMatch (stripChars line) = some (k, s) := by
      rw [hstrip]; exact hhm
    simp only [classifyLine, hhm2, hlm]
    rw [if_neg hexc]
    simp
  · intro line m s hstrip hm hh hn
    have hlm : listMatch (stripChars line) = some (m, s) := by
      rw [hstrip]
      exact listMatchRepl m s hm hh hn
    have hhm : headlineMatch (stripChars line) = none := by
      rw [hstrip]
      cases m with
      | zero => omega
      | succ j =>
          simp [headlineMatch, List.replicate_succ, List.takeWhile_cons]
    have hexc : ¬ startsWithChars (": Exclude:").data line = true := by
      intro hsw
      cases hline2 : line with
      | nil => rw [hline2] at hsw; exact absurd hsw (by decide)
      | cons c r =>
          rw [hline2] at hsw
          have hdata : (": Exclude:").data = ':' :: (" Exclude:").data := rfl
          rw [hdata] at hsw
          have hc := startsWithConsHead ':' _ c r hsw
          have hstrip2 := stripCharsConsNotSpace c (by rw [← hc]; decide) r
          rw [hline2, hstrip2] at hstrip
          cases m with
          | zero => omega
          | succ j =>
              rw [List.replicate_succ] at hstrip
              simp only [List.cons_append] at hstrip
              have : c = '*' := by
                have := congrArg List.head? hstrip
                simpa using this
              rw [← hc] at this
              exact absurd this (by decide)
    simp only [classifyLine, hhm, hlm]
    rw [if_neg hexc]
    simp

/-- Witness for C7: a concrete headline line of depth 2 and a concrete list
line of depth 8. -/
theorem c7_line_classifier_witness :
    classifyLine ("== Foo ==").data =
      [SitemapItem.node (String.mk (stripChars (" Foo ").data)) 2] ∧
    classifyLine ("** Bar").data =
      [SitemapItem.node (String.mk (stripChars (" Bar").data)) 8] :=
  ⟨c7_line_classifier.1 ("== Foo ==").data 2 (" Foo ").data (by decide) (by decide)
      (by decide) (by decide) (by decide) (by decide) (by decide),
   c7_line_classifier.2 ("** Bar").data 2 (" Bar").data (by decide) (by decide)
      (by decide) (by decide)⟩

/-!
### Claim C8: the depth invariant of the tree assembler
-/

/-- A child found in a forest satisfying the invariant satisfies it too. -/
theorem getF_depthInv :
    ∀ (cs : RForest) (i : Nat) (child : RTree) (d : Nat),
      depthInvF d cs = true → getF cs i = some child →
      depthInvT child = true ∧ d < child.depth
  | .nil, i, child, d, hinv, hg => by cases hg
  | .cons t ts, 0, child, d, hinv, hg => by
      cases hg
      simp only [depthInvF, Bool.and_eq_true, decide_eq_true_eq] at hinv
      exact ⟨hinv.1.2, hinv.1.1⟩
  | .cons t ts, i + 1, child, d, hinv, hg => by
      simp only [depthInvF, Bool.and_eq_true, decide_eq_true_eq] at hinv
      exact getF_depthInv ts i child d hinv.2 hg

/-- Replacing a child by one of equal depth that satisfies the invariant
preserves the forest invariant. -/
theorem depthInvF_setF :
    ∀ (cs : RForest) (i : Nat) (child child2 : RTree) (d : Nat),
      depthInvF d cs = true → getF cs i = some child →
      depthInvT child2 = true → child2.depth = child.depth →
      depthInvF d (setF cs i child2) = true
  | .nil, i, child, child2, d, hinv, hg, h2, hd => by cases hg
  | .cons t ts, 0, child, child2, d, hinv, hg, h2, hd => by
      cases hg
      simp only [depthInvF, Bool.and_eq_true, decide_eq_true_eq] at hinv
      simp only [setF, depthInvF, Bool.and_eq_true, decide_eq_true_eq]
      exact ⟨⟨by omega, h2⟩, hinv.2⟩
  | .cons t ts, i + 1, child, child2, d, hinv, hg, h2, hd => by
      simp only [depthInvF, Bool.and_eq_true, decide_eq_true_eq] at hinv
      simp only [setF, depthInvF, Bool.and_eq_true, decide_eq_true_eq]
      exact ⟨⟨hinv.1.1, hinv.1.2⟩, depthInvF_setF ts i child child2 d hinv.2 hg h2 hd⟩

/-- Appending an exclude header anywhere preserves the depth invariant. -/
theorem appendExcludeAt_inv :
    ∀ (p : List Nat) (t : RTree) (h : String),
      depthInvT t = true → depthInvT (appendExcludeAt t p h) = true := by
  intro p
  induction p with
  | nil =>
      intro t h hinv
      cases t with
      | node c d cs ex => simpa [appendExcludeAt, depthInvT] using hinv
  | cons i p ih =>
      intro t h hinv
      cases t with
      | node c d cs ex =>
          simp only [appendExcludeAt]
          cases hg : getF cs i with
          | none => simpa [depthInvT] using hinv
          | some child =>
              simp only [depthInvT] at hinv ⊢
              obtain ⟨hchild, hlt⟩ := getF_depthInv cs i child d hinv hg
              exact depthInvF_setF cs i child _ d hinv hg (ih child h hchild)
                (appendExcludeAt_fields p child h).2

mutual
/-- Inserting a strictly deeper node preserves the depth invariant. -/
theorem insert_node_inv :
    ∀ (t newNode : RTree), depthInvT t = true → depthInvT newNode = true →
      t.depth < newNode.depth → depthInvT (insert_node t newNode).1 = true
  | .node c d cs ex, newNode, hinv, hnew, hlt => by
      simp only [depthInvT] at hinv
      simp only [RTree.depth] at hlt
      simp only [insert_node, depthInvT]
      exact insert_nodeF_inv cs d newNode hinv hnew hlt
/-- Forest version of `insert_node_inv`. -/
theorem insert_nodeF_inv :
    ∀ (cs : RForest) (d : Nat) (newNode : RTree),
      depthInvF d cs = true → depthInvT newNode = true → d < newNode.depth →
      depthInvF d (insert_nodeF cs newNode).1 = true
  | .nil, d, newNode, hinv, hnew, hlt => by
      simp [insert_nodeF, depthInvF, hlt, hnew]
  | .cons t .nil, d, newNode, hinv, hnew, hlt => by
      simp only [depthInvF, Bool.and_eq_true, decide_eq_true_eq] at hinv
      simp only [insert_nodeF]
      split
      · have htree := insert_node_inv t newNode hinv.1.2 hnew (by assumption)
        have hdepth := insert_node_fields t newNode
        simp only [depthInvF, Bool.and_eq_true, decide_eq_true_eq]
        refine ⟨⟨?_, htree⟩, trivial⟩
        rw [hdepth.2]
        exact hinv.1.1
      · simp only [depthInvF, Bool.and_eq_true, decide_eq_true_eq]
        exact ⟨⟨hinv.1.1, hinv.1.2⟩, ⟨hlt, hnew⟩, trivial⟩
  | .cons t (.cons u ts), d, newNode, hinv, hnew, hlt => by
      simp only [depthInvF, Bool.and_eq_true, decide_eq_true_eq] at hinv
      simp only [insert_nodeF, depthInvF, Bool.and_eq_true, decide_eq_true_eq]
      refine ⟨⟨hinv.1.1, hinv.1.2⟩, ?_⟩
      have := insert_nodeF_inv (.cons u ts) d newNode ?_ hnew hlt
      · simpa [insert_nodeF] using this
      · simp only [depthInvF, Bool.and_eq_true, decide_eq_true_eq]
        exact hinv.2
end

/-- Bounds on the headline depth produced by a match. -/
theorem headlineMatchBounds (l : List Char) (k : Nat) (mid : List Char)
    (h : headlineMatch l = some (k, mid)) : 1 ≤ k ∧ k ≤ 6 := by
  simp only [headlineMatch] at h
  split at h
  · rename_i hcond
    obtain ⟨h1, h2, h3, -⟩ := hcond
    injection h with hpair
    injection hpair with hk hmid
    subst hk
    constructor <;> omega
  · cases h

/-- Every node descriptor produced by the classifier has depth at least 1. -/
theorem classifyLine_depth_ge (line : List Char) (c : String) (d : Nat)
    (h : SitemapItem.node c d ∈ classifyLine line) : 1 ≤ d := by
  simp only [classifyLine, List.mem_append] at h
  rcases h with (h | h) | h
  · cases hm : headlineMatch (stripChars line) with
    | none => rw [hm] at h; cases h
    | some km =>
        rw [hm] at h
        obtain ⟨k, mid⟩ := km
        simp only [List.mem_singleton, SitemapItem.node.injEq] at h
        have hb := headlineMatchBounds _ k mid hm
        omega
  · cases hm : listMatch (stripChars line) with
    | none => rw [hm] at h; cases h
    | some mr =>
        rw [hm] at h
        obtain ⟨m, rest⟩ := mr
        simp only [List.mem_singleton, SitemapItem.node.injEq] at h
        omega
  · split at h
    · simp at h
    · cases h

/-- Every node descriptor produced by the classifier pipeline has depth at
least 1. -/
theorem generate_nodes_depth_ge (s : String) (c : String) (d : Nat)
    (h : SitemapItem.node c d ∈ generate_sitemap_nodes s) : 1 ≤ d := by
  unfold generate_sitemap_nodes at h
  rw [memFoldrAppend] at h
  obtain ⟨line, -, hline⟩ := h
  exact classifyLine_depth_ge line c d hline

/-- The assembly loop preserves the depth invariant provided all incoming
nodes have depth at least 1 and the root has depth 0. -/
theorem runItems_inv :
    ∀ (items : List SitemapItem) (root : RTree) (lp : Option (List Nat)) (t : RTree),
      (∀ c d, SitemapItem.node c d ∈ items → 1 ≤ d) →
      depthInvT root = true → root.depth = 0 →
      runItems root lp items = some t → depthInvT t = true := by
  intro items
  induction items with
  | nil =>
      intro root lp t hmem hinv hd h
      cases h
      exact hinv
  | cons item rest ih =>
      intro root lp t hmem hinv hd h
      cases item with
      | node c d =>
          simp only [runItems] at h
          have hd1 : 1 ≤ d := hmem c d (List.mem_cons_self _ _)
          have hnewinv : depthInvT (RTree.node c d .nil []) = true := rfl
          have hinv2 := insert_node_inv root (RTree.node c d .nil []) hinv hnewinv
            (by rw [hd]; simp only [RTree.depth]; omega)
          have hfields := insert_node_fields root (RTree.node c d .nil [])
          exact ih _ _ _ (fun c2 d2 hm => hmem c2 d2 (List.mem_cons_of_mem _ hm))
            hinv2 (hfields.2.trans hd) h
      | exclude hdr =>
          simp only [runItems] at h
          cases lp with
          | none => cases h
          | some p =>
              have hinv2 := appendExcludeAt_inv p root hdr hinv
              have hfields := appendExcludeAt_fields p root hdr
              exact ih _ _ _ (fun c2 d2 hm => hmem c2 d2 (List.mem_cons_of_mem _ hm))
                hinv2 (hfields.2.trans hd) h

/-- C8: after every insertion (i.e. after processing any prefix of the
classified items, starting from the synthetic root of depth 0), every
node's children have a raw depth strictly greater than the node's own. -/
theorem c8_depth_invariant :
    ∀ (s : String) (n : Nat) (t : RTree),
      runItems sitemapRoot none ((generate_sitemap_nodes s).take n) = some t →
      depthInvT t = true := by
  intro s n t h
  refine runItems_inv _ sitemapRoot none t ?_ rfl rfl h
  intro c d hm
  exact generate_nodes_depth_ge s c d (List.take_subset n _ hm)

/-- Witness for C8: the invariant after the first two insertions of the C1
scenario input. -/
theorem c8_depth_invariant_witness : depthInvT c8Partial = true :=
  c8_depth_invariant c1Input 2 c8Partial rfl

end Sitemap
